import Mathlib

/-!
Verification of the WeChat article analyzer's MITM proxy core.

This file gives a shallow embedding, in Lean, of the proxy server's pure
logic from `src/electron/services/proxyServer.ts`, the certificate manager
(`certificateManager.ts`), the system-proxy helpers (`systemProxy.ts`) and
the monitoring-session IPC handlers in `src/electron/main.ts`, together
with theorems settling the specification's testable properties.

Buffers are modelled as `List Nat` (byte values), strings as Lean `String`
(JS string semantics coincide on the inputs considered here), and the
Node.js event-driven side effects as explicit state passing or emitted
event traces.
-/

namespace WechatAnalyzer

/-! ## Byte-level helpers (Node `Buffer` semantics) -/

/-- Normalize one index the way Node's `Buffer.slice`/`subarray` does:
a negative index counts from the end of the buffer, and indices are
clamped to `[0, len]`. -/
def jsSliceIdx (len : Nat) (i : Int) : Nat :=
  if i < 0 then (max ((len : Int) + i) 0).toNat else min i.toNat len

/-- Node `buf.slice(s, e)`: bytes from the normalized start index to the
normalized end index (empty if the end does not exceed the start). -/
def jsSlice (buf : List Nat) (s e : Int) : List Nat :=
  (buf.take (jsSliceIdx buf.length e)).drop (jsSliceIdx buf.length s)

/-- ASCII whitespace bytes removed by JavaScript `String.prototype.trim`. -/
def isWsByte (b : Nat) : Bool :=
  b == 32 || b == 9 || b == 10 || b == 13 || b == 11 || b == 12

/-- `String.prototype.trim` on a byte string. -/
def trimBytes (l : List Nat) : List Nat :=
  ((l.dropWhile isWsByte).reverse.dropWhile isWsByte).reverse

/-- Value of one hexadecimal digit byte (`0-9`, `a-f`, `A-F`). -/
def hexDigitVal (b : Nat) : Option Nat :=
  if 48 ≤ b ∧ b ≤ 57 then some (b - 48)
  else if 97 ≤ b ∧ b ≤ 102 then some (b - 87)
  else if 65 ≤ b ∧ b ≤ 70 then some (b - 55)
  else none

/-- Value of the maximal leading run of hex digits; `none` if the run is
empty (JavaScript `parseInt` yields `NaN` then). -/
def hexRunVal (l : List Nat) : Option Nat :=
  let run := l.takeWhile (fun b => (hexDigitVal b).isSome)
  if run.isEmpty then none
  else some (run.foldl (fun acc b => 16 * acc + (hexDigitVal b).getD 0) 0)

/-- Hex digits after an optional `0x`/`0X` prefix, as `parseInt(s, 16)`
treats them. -/
def hexAfterPrefix (l : List Nat) : Option Nat :=
  match l with
  | 48 :: 120 :: rest => hexRunVal rest
  | 48 :: 88 :: rest => hexRunVal rest
  | _ => hexRunVal l

/-- JavaScript `parseInt(s, 16)` on an already-trimmed byte string:
optional sign, optional `0x` prefix, then the maximal run of hex digits;
`none` models `NaN`. -/
def jsParseIntHexBytes (l : List Nat) : Option Int :=
  match l with
  | 45 :: rest => (hexAfterPrefix rest).map (fun n => -(n : Int))
  | 43 :: rest => (hexAfterPrefix rest).map (fun n => (n : Int))
  | _ => (hexAfterPrefix l).map (fun n => (n : Int))

/-- The index of the first CRLF pair at or after `start`, scanning exactly
like the `for` loop in `extractChunkedBody` (`i < length - 1`, testing
`buf[i] === 0x0d && buf[i+1] === 0x0a`). A negative start behaves like 0
because `buf[i]` is `undefined` for negative `i`. -/
def findCRLF (buf : List Nat) (start : Int) : Option Nat :=
  (List.range buf.length).find? fun i =>
    decide (start ≤ (i : Int)) && decide (i + 1 < buf.length) &&
      (buf.getD i 0 == 13) && (buf.getD (i + 1) 0 == 10)

/-! ## `extractChunkedBody` (proxyServer.ts lines 295-327)

The source's `while` loop is not structurally terminating (and, as proved
below, genuinely diverges on some inputs), so the loop is modelled with an
explicit fuel parameter: `none` means the loop has not finished within the
given number of iterations. -/

/-- One-to-one translation of the `while (offset < chunkedBody.length)`
loop body; `acc` is the `chunks` array. `some acc` corresponds to the
loop finishing (by `break` or by the loop condition) and returning
`Buffer.concat(chunks)`. -/
def extractChunkedAux (buf : List Nat) : Nat → Int → List (List Nat) → Option (List (List Nat))
  | 0, _, _ => none
  | fuel + 1, offset, acc =>
    if offset < (buf.length : Int) then
      match findCRLF buf offset with
      | none => some acc
      | some lineEnd =>
        match jsParseIntHexBytes (trimBytes (jsSlice buf offset (lineEnd : Int))) with
        | none => some acc
        | some size =>
          if size = 0 then some acc
          else
            let chunkStart : Int := (lineEnd : Int) + 2
            let chunkEnd : Int := chunkStart + size
            if chunkEnd > (buf.length : Int) then some acc
            else extractChunkedAux buf fuel (chunkEnd + 2) (acc ++ [jsSlice buf chunkStart chunkEnd])
    else some acc

/-- `extractChunkedBody`, fuelled: `some` is the concatenation the source
returns, `none` means the loop is still running after `fuel` iterations. -/
def extractChunkedBody (fuel : Nat) (buf : List Nat) : Option (List Nat) :=
  (extractChunkedAux buf fuel 0 []).map List.flatten

/-- Byte of a single hex digit (lowercase), as produced by standard
chunked framing. -/
def hexDigitByte (n : Nat) : Nat :=
  if n < 10 then 48 + n else 87 + n

def toHexBytesAux : Nat → Nat → List Nat
  | 0, _ => []
  | fuel + 1, n =>
    if n < 16 then [hexDigitByte n]
    else toHexBytesAux fuel (n / 16) ++ [hexDigitByte (n % 16)]

/-- Big-endian lowercase hex representation of a chunk size (`n + 1`
steps of fuel always suffice since `n / 16 < n`). -/
def toHexBytes (n : Nat) : List Nat :=
  toHexBytesAux (n + 1) n

/-- CRLF bytes. -/
def crlfBytes : List Nat := [13, 10]

/-- Standard HTTP/1.1 framing of one chunk: hex size line, CRLF, data,
CRLF. -/
def encodeChunk (piece : List Nat) : List Nat :=
  toHexBytes piece.length ++ crlfBytes ++ piece ++ crlfBytes

/-- Standard chunked framing of a sequence of chunks, terminated by the
zero-size chunk `0 CRLF CRLF`. -/
def encodeChunked (pieces : List (List Nat)) : List Nat :=
  (pieces.map encodeChunk).flatten ++ [48, 13, 10, 13, 10]

/-! ## Cookie and URL-parameter extraction (proxyServer.ts lines 474-569)

JavaScript objects built by `parseCookieString` are modelled as ordered
association lists with JavaScript property-assignment semantics: assigning
to an existing key updates it in place, assigning a new key appends. -/

/-- JavaScript whitespace recognized by `String.prototype.trim` (ASCII
part). -/
def isWsChar (c : Char) : Bool :=
  c == ' ' || c == '\t' || c == '\n' || c == '\r'

/-- JavaScript `String.prototype.trim` (character-list level, structural
so that concrete instances evaluate inside the kernel). -/
def trimChars (l : List Char) : List Char :=
  ((l.dropWhile isWsChar).reverse.dropWhile isWsChar).reverse

/-- `String.prototype.trim`. -/
def jsTrim (s : String) : String :=
  (trimChars s.data).asString

/-- JavaScript `String.prototype.split` with a one-character separator. -/
def splitOnChar (sep : Char) : List Char → List (List Char)
  | [] => [[]]
  | c :: rest =>
    if c = sep then [] :: splitOnChar sep rest
    else
      match splitOnChar sep rest with
      | g :: gs => (c :: g) :: gs
      | [] => [[c]]

/-- String form of `splitOnChar`. -/
def jsSplit (s : String) (sep : Char) : List String :=
  (splitOnChar sep s.data).map List.asString

/-- JavaScript `obj[k] = v` on an ordered association list. -/
def jsObjInsert (m : List (String × String)) (k v : String) : List (String × String) :=
  if m.any (fun p => p.1 == k) then m.map (fun p => if p.1 == k then (k, v) else p)
  else m ++ [(k, v)]

/-- JavaScript property read `obj[k]`, `none` for `undefined`. -/
def jsLookup (m : List (String × String)) (k : String) : Option String :=
  (m.find? (fun p => p.1 == k)).map (fun p => p.2)

/-- JavaScript truthiness of `obj[k]` for string-valued properties:
present and nonempty. -/
def jsTruthy (m : List (String × String)) (k : String) : Bool :=
  match jsLookup m k with
  | some v => v != ""
  | none => false

/-- `parseCookieString` (lines 552-569): split on `;`, trim, keep pairs
whose first `=` is past position 0 and whose trimmed key and value are
both nonempty. -/
def parseCookieString (cookieStr : String) : List (String × String) :=
  let pairs := ((jsSplit cookieStr ';').map jsTrim).filter (fun s => s ≠ "")
  pairs.foldl (fun cookies pair =>
    match pair.data.findIdx? (fun c => c = '=') with
    | some idx =>
      if idx > 0 then
        let key := jsTrim (pair.data.take idx).asString
        let value := jsTrim (pair.data.drop (idx + 1)).asString
        if key ≠ "" ∧ value ≠ "" then jsObjInsert cookies key value else cookies
      else cookies
    | none => cookies) []

/-- Hex value of a character, for percent-decoding. -/
def hexCharVal (c : Char) : Option Nat :=
  if '0' ≤ c ∧ c ≤ '9' then some (c.toNat - 48)
  else if 'a' ≤ c ∧ c ≤ 'f' then some (c.toNat - 87)
  else if 'A' ≤ c ∧ c ≤ 'F' then some (c.toNat - 55)
  else none

/-- Lenient percent-plus decoding as applied by `URLSearchParams`
(`application/x-www-form-urlencoded`): `+` becomes a space, a valid
`%XY` becomes the byte's character, malformed escapes pass through.
Multi-byte UTF-8 escapes are modelled character-wise; on the ASCII
values the proxy traffic carries this coincides with the browser
semantics. -/
def decodeWwwCharsAux : Nat → List Char → List Char
  | 0, _ => []
  | _ + 1, [] => []
  | n + 1, '+' :: rest => ' ' :: decodeWwwCharsAux n rest
  | n + 1, '%' :: a :: b :: rest =>
    match hexCharVal a, hexCharVal b with
    | some x, some y => Char.ofNat (16 * x + y) :: decodeWwwCharsAux n rest
    | _, _ => '%' :: decodeWwwCharsAux n (a :: b :: rest)
  | n + 1, c :: rest => c :: decodeWwwCharsAux n rest

/-- Lenient percent-plus decoding, run with enough fuel: each step
consumes at least one character, so `l.length` steps always complete. -/
def decodeWwwChars (l : List Char) : List Char :=
  decodeWwwCharsAux l.length l

/-- String form of `decodeWwwChars`. -/
def decodeWwwForm (s : String) : String :=
  (decodeWwwChars s.data).asString

/-- Strict `decodeURIComponent`: a `%` must be followed by two hex
digits, otherwise the call throws (`none`); `+` is untouched. Escapes
are decoded character-wise as above. -/
def decodeURIComponentOpt : List Char → Option (List Char)
  | [] => some []
  | '%' :: a :: b :: rest =>
    match hexCharVal a, hexCharVal b with
    | some x, some y => (decodeURIComponentOpt rest).map (fun r => Char.ofNat (16 * x + y) :: r)
    | _, _ => none
  | '%' :: _ => none
  | c :: rest => (decodeURIComponentOpt rest).map (fun r => c :: r)

/-- String form of `decodeURIComponentOpt`. -/
def decodeURIComponentStr (s : String) : Option String :=
  (decodeURIComponentOpt s.data).map List.asString

/-- The query component `new URL(path, base)` extracts: everything after
the first `?`, up to a `#`. -/
def queryOf (path : String) : String :=
  match path.data.dropWhile (fun c => c ≠ '?') with
  | [] => ""
  | _ :: rest => (rest.takeWhile (fun c => c ≠ '#')).asString

/-- `URLSearchParams` parsing of a query string: split on `&`, drop empty
components, split each at its first `=`, percent-plus-decode names and
values. -/
def parseQueryParams (q : String) : List (String × String) :=
  ((jsSplit q '&').filter (fun s => s ≠ "")).map fun comp =>
    match comp.data.findIdx? (fun c => c = '=') with
    | some idx =>
      (decodeWwwForm (comp.data.take idx).asString,
        decodeWwwForm (comp.data.drop (idx + 1)).asString)
    | none => (decodeWwwForm comp, "")

/-- `url.searchParams.get(name)`: value of the first parameter with the
given name, `none` for `null`. -/
def getSearchParam (path name : String) : Option String :=
  ((parseQueryParams (queryOf path)).find? (fun p => p.1 == name)).map (fun p => p.2)

/-- Substring containment, JavaScript `String.prototype.includes`. -/
def strContainsB (s pat : String) : Bool :=
  decide (pat.data <:+: s.data)

/-- Lines 507-517: layer the `uin` / `key` / `appmsg_token` URL
parameters over the cookie map; `uin` and `appmsg_token` pass through
`decodeURIComponent`, which can throw (`none`, caught by the enclosing
`try`). -/
def applyUrlParams (cookies : List (String × String)) (uin key tok : Option String) :
    Option (List (String × String)) :=
  let step1 : Option (List (String × String)) :=
    match uin with
    | some u => if u ≠ "" then (decodeURIComponentStr u).map (jsObjInsert cookies "uin") else some cookies
    | none => some cookies
  match step1 with
  | none => none
  | some m1 =>
    let m2 :=
      match key with
      | some k => if k ≠ "" then jsObjInsert m1 "key" k else m1
      | none => m1
    match tok with
    | some t => if t ≠ "" then (decodeURIComponentStr t).map (jsObjInsert m2 "appmsg_token") else some m2
    | none => some m2

/-- Array `join(sep)` on strings. -/
def joinSep (sep : String) : List String → String
  | [] => ""
  | [x] => x
  | x :: xs => x ++ sep ++ joinSep sep xs

/-- Lines 522-525: serialize the cookie map back to
`name=value; name2=value2`, keeping only truthy values. -/
def serializeCookies (m : List (String × String)) : String :=
  joinSep "; " ((m.filter (fun p => p.2 ≠ "")).map (fun p => p.1 ++ "=" ++ p.2))

/-- `checkAndExtractCompleteCookie` (lines 474-547). The result is the
string passed to `config.onCookieFound`, or `none` when no credential is
emitted (early returns, missing critical fields, or a caught exception
from `decodeURIComponent`). -/
def checkAndExtractCompleteCookie (requestPath cookieHeader host : String) : Option String :=
  if cookieHeader = "" then none
  else if ¬ strContainsB host "mp.weixin.qq.com" then none
  else if ¬ strContainsB requestPath "action=getmsg" then none
  else
    match applyUrlParams (parseCookieString cookieHeader)
        (getSearchParam requestPath "uin")
        (getSearchParam requestPath "key")
        (getSearchParam requestPath "appmsg_token") with
    | none => none
    | some cookies =>
      if jsTruthy cookies "key" || jsTruthy cookies "appmsg_token" then
        some (serializeCookies cookies)
      else none

/-! ## Article capture (proxyServer.ts lines 9-41 and 332-444)

`parseAndStoreArticles` is modelled after `JSON.parse` has produced the
response envelope: the JSON decoding itself is external, the envelope
fields and the nested `general_msg_list` structure are the function's
actual inputs.  `general_msg_list = none` models the field being absent
(the source then falls back to `'{"list":[]}'`).  The whole source
function runs inside `try/catch`, so it never throws; the model is a
total state transformer accordingly. -/

structure ArticleData where
  title : String
  url : String
  cover : String
  digest : String
  publishTime : Int
  author : String
deriving DecidableEq

/-- One entry of `multi_app_msg_item_list`. -/
structure MultiAppMsgItem where
  title : String
  content_url : String
  cover : String
  digest : String
  author : Option String
deriving DecidableEq

/-- The `app_msg_ext_info` object of one message. -/
structure AppMsgExtInfo where
  title : String
  content_url : String
  cover : String
  digest : String
  author : Option String
  multi_app_msg_item_list : List MultiAppMsgItem
deriving DecidableEq

/-- One message of `general_msg_list.list`. -/
structure MsgEntry where
  app_msg_ext_info : Option AppMsgExtInfo
  comm_msg_info_datetime : Option Int
deriving DecidableEq

/-- The parsed `getmsg` response envelope. -/
structure GetmsgEnvelope where
  ret : Int
  nickname : Option String
  general_msg_list : Option (List MsgEntry)
deriving DecidableEq

/-- The module-level mutable capture state (lines 24-26). -/
structure CaptureState where
  capturedArticles : List ArticleData
  capturedNickname : String
deriving DecidableEq

/-- Lines 397-423: flatten one message into article records, expanding
`multi_app_msg_item_list`. -/
def articlesOfMsg (msg : MsgEntry) : List ArticleData :=
  match msg.app_msg_ext_info with
  | none => []
  | some item =>
    { title := item.title, url := item.content_url, cover := item.cover,
      digest := item.digest, publishTime := msg.comm_msg_info_datetime.getD 0,
      author := item.author.getD "" } ::
      item.multi_app_msg_item_list.map fun sub =>
        { title := sub.title, url := sub.content_url, cover := sub.cover,
          digest := sub.digest, publishTime := msg.comm_msg_info_datetime.getD 0,
          author := sub.author.getD "" }

/-- Lines 425-429: de-duplicate the new batch against the URLs already
captured (and only against those), then append. -/
def storeNewArticles (captured : List ArticleData) (newArticles : List ArticleData) :
    List ArticleData :=
  if newArticles.length > 0 then
    captured ++ newArticles.filter (fun a => ¬ captured.any (fun b => b.url == a.url))
  else captured

/-- `parseAndStoreArticles` (lines 332-444) as a state transformer on the
capture state. -/
def parseAndStoreArticles (env : GetmsgEnvelope) (s : CaptureState) : CaptureState :=
  if env.ret ≠ 0 then s
  else
    let s1 :=
      match env.nickname with
      | some n => if n ≠ "" ∧ s.capturedNickname = "" then { s with capturedNickname := n } else s
      | none => s
    let msgs := env.general_msg_list.getD []
    let newArticles := (msgs.map articlesOfMsg).flatten
    { s1 with capturedArticles := storeNewArticles s1.capturedArticles newArticles }

/-! ## CA certificate generation (certificateManager.ts lines 1410-1507)

The filesystem is an association list from path to file contents.  The
forge RSA key generation and X.509 assembly are nondeterministic external
calls; the PEM strings they would produce are passed in as the
`freshKey` / `freshCert` parameters. -/

/-- Filesystem contents, path to file text. -/
abbrev FileSys : Type := List (String × String)

/-- `fs.existsSync` + `fs.readFileSync` (the map read). -/
def fsRead (fs : FileSys) (path : String) : Option String :=
  jsLookup fs path

/-- `fs.writeFileSync` (the map update: overwrite in place or create). -/
def fsWrite (fs : FileSys) (path content : String) : FileSys :=
  jsObjInsert fs path content

/-- `CA_KEY_PATH`. -/
def caKeyPath : String := "certificates/ca-key.pem"

/-- `CA_CERT_PATH`. -/
def caCertPath : String := "certificates/ca-cert.pem"

/-- The record `generateCACertificate` returns. -/
structure CertificateInfo where
  keyPath : String
  certPath : String
  key : String
  cert : String
deriving DecidableEq

/-- `generateCACertificate`: if both persisted files exist they are
returned unchanged; otherwise fresh material is generated, written to
both paths and returned. -/
def generateCACertificate (fs : FileSys) (freshKey freshCert : String) :
    FileSys × CertificateInfo :=
  match fsRead fs caKeyPath, fsRead fs caCertPath with
  | some k, some c => (fs, ⟨caKeyPath, caCertPath, k, c⟩)
  | _, _ =>
    let fs1 := fsWrite (fsWrite fs caKeyPath freshKey) caCertPath freshCert
    (fs1, ⟨caKeyPath, caCertPath, freshKey, freshCert⟩)

/-! ## Proxy server lifecycle (proxyServer.ts lines 43-92 and 574-631) -/

/-- The module-level proxy server state: whether the `server` variable
holds a listener, and the `isClosing` flag. -/
structure ProxyServerState where
  running : Bool
  isClosing : Bool
deriving DecidableEq

/-- `startProxyServer` (lines 54-92).  `bindOk` tells whether the
`listen` call succeeds on this invocation.  The returned
`Except` is the settled promise: `ok` for resolve, `error` for
reject. -/
def startProxyServer (s : ProxyServerState) (bindOk : Bool) :
    ProxyServerState × Except String Unit :=
  if s.running then (s, Except.error "代理服务器已在运行")
  else if bindOk then ({ running := true, isClosing := false }, Except.ok ())
  else ({ running := false, isClosing := false }, Except.error "listen error")

/-- `stopProxyServer` (lines 574-624).  Every path of the source resolves
the promise (the not-running early return, the close callback, the
3-second timeout and the catch handler), so the model always returns
`ok`. -/
def stopProxyServer (s : ProxyServerState) : ProxyServerState × Except String Unit :=
  if ¬ s.running then ({ s with isClosing := false }, Except.ok ())
  else ({ running := false, isClosing := false }, Except.ok ())

/-- `isProxyRunning` (lines 629-631). -/
def isProxyRunning (s : ProxyServerState) : Bool :=
  s.running

/-! ## HTTPS CONNECT handling (proxyServer.ts lines 136-224 and 449-469)

Socket traffic is modelled as an emitted event trace.  `head` is the
buffered bytes handed over with the CONNECT event, `upstreamData` the
chunk sequence the upstream socket produces, and `decryptedRequests` the
(request path, cookie header) pairs the TLS-terminated socket would
deliver on the interception branch. -/

/-- JavaScript `parseInt(s, 10)` (sign and maximal decimal digit run;
`none` models `NaN`). -/
def jsParseIntDec (s : String) : Option Int :=
  let digitsVal : List Char → Option Nat := fun l =>
    let run := l.takeWhile (fun c => c.isDigit)
    if run.isEmpty then none
    else some (run.foldl (fun acc c => 10 * acc + (c.toNat - 48)) 0)
  match (trimChars s.data) with
  | '-' :: rest => (digitsVal rest).map (fun n => -(n : Int))
  | '+' :: rest => (digitsVal rest).map (fun n => (n : Int))
  | l => (digitsVal l).map (fun n => (n : Int))

/-- `parseHostPort` (lines 636-640): split the CONNECT target on `:`;
port defaults to 443 when absent or empty, `none` models a `NaN` port. -/
def parseHostPort (url : String) : String × Option Int :=
  let parts := jsSplit url ':'
  let host := parts.headD ""
  let port :=
    match parts.drop 1 with
    | portStr :: _ => if portStr ≠ "" then jsParseIntDec portStr else some 443
    | [] => some 443
  (host, port)

/-- Observable actions of one CONNECT handling. -/
inductive ProxyEvent where
  | tcpConnect (host : String) (port : Option Int)
  | writeClient (bytes : List Nat)
  | writeUpstream (bytes : List Nat)
  | extractCookie (path cookie host : String)
  | tlsIntercept (host : String)
deriving DecidableEq

/-- The `HTTP/1.1 200 Connection Established` response bytes. -/
def connectionEstablished : List Nat :=
  ("HTTP/1.1 200 Connection Established".data.map Char.toNat) ++ [13, 10, 13, 10]

/-- `tunnelConnection` (lines 449-469): raw TCP connect, 200 response,
flush the head bytes upstream, then pipe each upstream chunk to the
client verbatim (the `serverSocket.pipe(clientSocket)` direction; the
opposite direction is the symmetric pipe). -/
def tunnelConnection (host : String) (port : Option Int) (head : List Nat)
    (upstreamData : List (List Nat)) : List ProxyEvent :=
  ProxyEvent.tcpConnect host port :: ProxyEvent.writeClient connectionEstablished ::
    ProxyEvent.writeUpstream head :: upstreamData.map ProxyEvent.writeClient

/-- `handleHttpsConnect` (lines 136-224): parse `host:port`, and decrypt
only when the host contains the WeChat domain, otherwise tunnel
untouched.  On the interception branch each decrypted request goes
through `checkAndExtractCompleteCookie`. -/
def handleHttpsConnect (url : String) (head : List Nat) (upstreamData : List (List Nat))
    (decryptedRequests : List (String × String)) : List ProxyEvent :=
  let hp := parseHostPort url
  if ¬ strContainsB hp.1 "mp.weixin.qq.com" then
    tunnelConnection hp.1 hp.2 head upstreamData
  else
    ProxyEvent.writeClient connectionEstablished :: ProxyEvent.tlsIntercept hp.1 ::
      decryptedRequests.map (fun r => ProxyEvent.extractCookie r.1 r.2 hp.1)

/-- Bytes a trace delivers to the client socket, in order. -/
def clientBytes (events : List ProxyEvent) : List Nat :=
  (events.filterMap fun e =>
    match e with
    | ProxyEvent.writeClient b => some b
    | _ => none).flatten

/-- Whether an event is an invocation of the credential extraction
logic. -/
def isExtractionEvent : ProxyEvent → Bool
  | ProxyEvent.extractCookie _ _ _ => true
  | _ => false

/-! ## Monitoring-session IPC handlers (main.ts lines 740-886)

The Windows proxy registry state is `{ ProxyEnable, ProxyServer }`.
`enableSystemProxy` / `disableSystemProxy` either perform their registry
writes and return `true`, or fail (`execAsync` rejection, caught in the
source) leaving the registry unchanged and returning `false`; the
success of each call is an explicit parameter.  OS-level calls are also
recorded in an event trace to state the ordering property. -/

/-- The OS proxy registry values. -/
structure OsProxySettings where
  proxyEnable : Bool
  proxyServer : String
deriving DecidableEq

/-- What `getProxyStatus` returns (systemProxy.ts lines 60-89): the
enable flag, and the server string only when enabled. -/
structure SavedProxySettings where
  enabled : Bool
  server : Option String
deriving DecidableEq

/-- `getProxyStatus`. -/
def getProxyStatus (os : OsProxySettings) : SavedProxySettings :=
  { enabled := os.proxyEnable,
    server := if os.proxyEnable then some os.proxyServer else none }

/-- `enableSystemProxy` (systemProxy.ts lines 10-30). -/
def enableSystemProxy (ok : Bool) (proxyAddress : String) (os : OsProxySettings) :
    OsProxySettings × Bool :=
  if ok then ({ proxyEnable := true, proxyServer := proxyAddress }, true)
  else (os, false)

/-- `disableSystemProxy` (systemProxy.ts lines 35-55): only clears the
enable flag. -/
def disableSystemProxy (ok : Bool) (os : OsProxySettings) : OsProxySettings × Bool :=
  if ok then ({ os with proxyEnable := false }, true)
  else (os, false)

/-- OS-level calls the handlers make, for ordering statements. -/
inductive SessionEvent where
  | callEnableProxy (server : String)
  | callDisableProxy
  | callStopProxyServer
deriving DecidableEq

/-- Combined world state the handlers act on. -/
structure SessionWorld where
  os : OsProxySettings
  proxyRunning : Bool
  originalProxySettings : Option SavedProxySettings
deriving DecidableEq

/-- Outcome of the `auto-start-cookie-monitoring` handler. -/
inductive StartOutcome where
  | success
  | failure (message : String)
deriving DecidableEq

/-- Environment outcomes injected into one `auto-start-cookie-monitoring`
run: whether the CA certificate is already installed, whether installing
it succeeds, whether the proxy server's `listen` succeeds, whether
setting the system proxy succeeds, and whether the cleanup path's
enable/disable calls succeed. -/
structure StartFlags where
  certInstalled : Bool
  installOk : Bool
  bindOk : Bool
  enableOk : Bool
  cleanupEnableOk : Bool
  cleanupDisableOk : Bool
deriving DecidableEq

/-- The `catch` block of `auto-start-cookie-monitoring` (main.ts lines
806-837): stop the proxy if running, then re-apply the saved original
settings and clear them. -/
def autoStartCleanup (w : SessionWorld) (f : StartFlags) : SessionWorld :=
  let w1 := if w.proxyRunning then { w with proxyRunning := false } else w
  match w1.originalProxySettings with
  | some saved =>
    let os' :=
      match saved.server with
      | some srv =>
        if saved.enabled ∧ srv ≠ "" then (enableSystemProxy f.cleanupEnableOk srv w1.os).1
        else (disableSystemProxy f.cleanupDisableOk w1.os).1
      | none => (disableSystemProxy f.cleanupDisableOk w1.os).1
    { w1 with os := os', originalProxySettings := none }
  | none => w1

/-- The `auto-start-cookie-monitoring` handler (main.ts lines 743-838):
stop a leftover proxy, ensure the CA certificate, save the current OS
proxy settings, start the proxy server, then point the OS proxy at it;
failures after the save run the catch cleanup (a thrown `listen` error)
or stop the proxy explicitly (a `false` from `enableSystemProxy`). -/
def autoStartCookieMonitoring (w : SessionWorld) (f : StartFlags) :
    SessionWorld × StartOutcome :=
  let w0 := if w.proxyRunning then { w with proxyRunning := false } else w
  if ¬ f.certInstalled ∧ ¬ f.installOk then
    (w0, StartOutcome.failure "自动安装CA证书失败，请以管理员身份运行应用")
  else
    let w1 := { w0 with originalProxySettings := some (getProxyStatus w0.os) }
    if ¬ f.bindOk then
      (autoStartCleanup w1 f, StartOutcome.failure "listen error")
    else
      let w2 := { w1 with proxyRunning := true }
      let res := enableSystemProxy f.enableOk "127.0.0.1:8899" w2.os
      let w3 := { w2 with os := res.1 }
      if ¬ res.2 then
        ({ w3 with proxyRunning := false }, StartOutcome.failure "自动设置系统代理失败")
      else (w3, StartOutcome.success)

/-- The OS calls step 1 of `auto-stop-cookie-monitoring` makes: re-enable
with the original server when it was enabled with a truthy server string,
otherwise disable. -/
def restoreCallsOf (orig : Option SavedProxySettings) : List SessionEvent :=
  match orig with
  | some saved =>
    match saved.server with
    | some srv =>
      if saved.enabled ∧ srv ≠ "" then [SessionEvent.callEnableProxy srv]
      else [SessionEvent.callDisableProxy]
    | none => [SessionEvent.callDisableProxy]
  | none => []

/-- The effect of step 1 on the OS proxy registry. -/
def applyRestore (restoreOk : Bool) (orig : Option SavedProxySettings)
    (os : OsProxySettings) : OsProxySettings :=
  match orig with
  | some saved =>
    match saved.server with
    | some srv =>
      if saved.enabled ∧ srv ≠ "" then (enableSystemProxy restoreOk srv os).1
      else (disableSystemProxy restoreOk os).1
    | none => (disableSystemProxy restoreOk os).1
  | none => os

/-- The OS calls step 2 makes: stop the proxy server when it is running. -/
def stopCallsOf (running : Bool) : List SessionEvent :=
  if running then [SessionEvent.callStopProxyServer] else []

/-- The `auto-stop-cookie-monitoring` handler (main.ts lines 840-886):
restore the saved settings first, clear them, then stop the proxy
server.  Returns the event trace together with the final world. -/
def autoStopCookieMonitoring (w : SessionWorld) (restoreOk : Bool) :
    SessionWorld × List SessionEvent :=
  ({ os := applyRestore restoreOk w.originalProxySettings w.os,
     proxyRunning := false, originalProxySettings := none },
    restoreCallsOf w.originalProxySettings ++ stopCallsOf w.proxyRunning)

/-! ## Concrete inputs and event predicates used by the theorems -/

/-- A `getmsg` message entry used as concrete test data: a single-record
message. -/
def dupMsg : MsgEntry :=
  { app_msg_ext_info := some
      { title := "t", content_url := "u", cover := "c", digest := "d",
        author := some "a", multi_app_msg_item_list := [] },
    comm_msg_info_datetime := some 5 }

/-- An envelope whose message list repeats the same record URL twice in
one batch. -/
def dupEnvelope : GetmsgEnvelope :=
  { ret := 0, nickname := none, general_msg_list := some [dupMsg, dupMsg] }

/-- A malformed chunked stream: a valid first size line (`10`, hex 16)
and 16 data bytes, then a size line reading `-1d` (parsed as -29), which
makes the source loop jump back to offset 0 and cycle forever. -/
def chunkLoopBuf : List Nat :=
  [49, 48, 13, 10] ++ List.replicate 18 97 ++ [45, 49, 100, 13, 10]

/-- Whether a session event is one of the two settings-restore calls. -/
def isRestoreEvent : SessionEvent → Bool
  | SessionEvent.callEnableProxy _ => true
  | SessionEvent.callDisableProxy => true
  | SessionEvent.callStopProxyServer => false

/-! ## Supporting lemmas -/

theorem find?_map_keyUpdate (k v : String) :
    ∀ m : List (String × String), m.any (fun p => p.1 == k) = true →
      List.find? (fun p => p.1 == k) (m.map (fun p => if p.1 == k then (k, v) else p))
        = some (k, v) := by
  intro m
  induction m with
  | nil => intro h; simp at h
  | cons q rest ih =>
    intro h
    cases hq : (q.1 == k) with
    | true => simp [List.find?, hq]
    | false =>
      have hrest : rest.any (fun p => p.1 == k) = true := by
        simpa [List.any_cons, hq] using h
      have hgq : (if q.1 == k then (k, v) else q) = q := if_neg (ne_true_of_eq_false hq)
      rw [List.map_cons, hgq,
        @List.find?_cons_of_neg _ (fun p => p.1 == k) q _ (ne_true_of_eq_false hq)]
      exact ih hrest

theorem jsLookup_jsObjInsert_self (m : List (String × String)) (k v : String) :
    jsLookup (jsObjInsert m k v) k = some v := by
  unfold jsObjInsert jsLookup
  cases h : m.any (fun p => p.1 == k) with
  | true =>
    rw [if_pos rfl, find?_map_keyUpdate k v m h]
    rfl
  | false =>
    rw [if_neg (by simp), List.find?_append]
    have hnone : List.find? (fun p => p.1 == k) m = none := by
      rw [List.find?_eq_none]
      exact List.any_eq_false.1 h
    rw [hnone]
    simp [List.find?]

theorem find?_map_keyUpdate_ne (k v k' : String) (hne : k' ≠ k) :
    ∀ m : List (String × String),
      List.find? (fun p => p.1 == k') (m.map (fun p => if p.1 == k then (k, v) else p))
        = List.find? (fun p => p.1 == k') m := by
  intro m
  induction m with
  | nil => rfl
  | cons q rest ih =>
    cases hq : (q.1 == k) with
    | true =>
      have hq' : q.1 = k := beq_iff_eq.1 hq
      have hk' : (k == k') = false := beq_eq_false_iff_ne.2 (fun hh => hne hh.symm)
      have hqk' : (q.1 == k') = false := by rw [hq']; exact hk'
      rw [List.map_cons, if_pos hq,
        @List.find?_cons_of_neg _ (fun p => p.1 == k') (k, v) _ (ne_true_of_eq_false hk'),
        @List.find?_cons_of_neg _ (fun p => p.1 == k') q _ (ne_true_of_eq_false hqk')]
      exact ih
    | false =>
      have hgq : (if q.1 == k then (k, v) else q) = q := if_neg (ne_true_of_eq_false hq)
      cases hq2 : (q.1 == k') with
      | true =>
        rw [List.map_cons, hgq,
          @List.find?_cons_of_pos _ (fun p => p.1 == k') q _ hq2,
          @List.find?_cons_of_pos _ (fun p => p.1 == k') q _ hq2]
      | false =>
        rw [List.map_cons, hgq,
          @List.find?_cons_of_neg _ (fun p => p.1 == k') q _ (ne_true_of_eq_false hq2),
          @List.find?_cons_of_neg _ (fun p => p.1 == k') q _ (ne_true_of_eq_false hq2)]
        exact ih

theorem jsLookup_jsObjInsert_ne (m : List (String × String)) (k v k' : String) (hne : k' ≠ k) :
    jsLookup (jsObjInsert m k v) k' = jsLookup m k' := by
  unfold jsObjInsert jsLookup
  cases h : m.any (fun p => p.1 == k) with
  | true => rw [if_pos rfl, find?_map_keyUpdate_ne k v k' hne m]
  | false =>
    rw [if_neg (by simp), List.find?_append]
    have hk' : (k == k') = false := beq_eq_false_iff_ne.2 (fun hh => hne hh.symm)
    have hsing : List.find? (fun p => p.1 == k') [(k, v)] = none := by
      rw [@List.find?_cons_of_neg _ (fun p => p.1 == k') (k, v) _ (ne_true_of_eq_false hk')]
      rfl
    rw [hsing]
    simp

theorem mem_jsObjInsert_self (m : List (String × String)) (k v : String) :
    (k, v) ∈ jsObjInsert m k v := by
  unfold jsObjInsert
  cases h : m.any (fun p => p.1 == k) with
  | true =>
    rw [if_pos rfl]
    rcases List.any_eq_true.1 h with ⟨p, hp, hpk⟩
    exact List.mem_map.2 ⟨p, hp, by rw [if_pos hpk]⟩
  | false =>
    rw [if_neg (by simp)]
    exact List.mem_append_right _ (List.mem_singleton.2 rfl)

theorem mem_jsObjInsert_of_ne (m : List (String × String)) (k v : String)
    (p : String × String) (hp : p ∈ m) (hne : p.1 ≠ k) : p ∈ jsObjInsert m k v := by
  unfold jsObjInsert
  cases h : m.any (fun q => q.1 == k) with
  | true =>
    rw [if_pos rfl]
    refine List.mem_map.2 ⟨p, hp, ?_⟩
    rw [if_neg (by simpa using hne)]
  | false =>
    rw [if_neg (by simp)]
    exact List.mem_append_left _ hp

theorem mem_infix_joinSep (sep : String) :
    ∀ (l : List String) (x : String), x ∈ l → x.data <:+: (joinSep sep l).data := by
  intro l
  induction l with
  | nil => intro x hx; simp at hx
  | cons y ys ih =>
    intro x hx
    cases ys with
    | nil =>
      rcases List.mem_singleton.1 hx with rfl
      exact List.infix_refl _
    | cons z zs =>
      rcases List.mem_cons.1 hx with rfl | hx'
      · show x.data <:+: (x ++ sep ++ joinSep sep (z :: zs)).data
        refine ⟨[], (sep ++ joinSep sep (z :: zs)).data, ?_⟩
        simp [String.data_append]
      · have h1 : x.data <:+: (joinSep sep (z :: zs)).data := ih x hx'
        have h2 : (joinSep sep (z :: zs)).data <:+: (y ++ sep ++ joinSep sep (z :: zs)).data := by
          refine ⟨(y ++ sep).data, [], ?_⟩
          simp [String.data_append]
        exact h1.trans h2

theorem serializeCookies_contains (m : List (String × String)) (p : String × String)
    (hp : p ∈ m) (hv : p.2 ≠ "") :
    (p.1 ++ "=" ++ p.2).data <:+: (serializeCookies m).data := by
  unfold serializeCookies
  refine mem_infix_joinSep _ _ _ ?_
  refine List.mem_map.2 ⟨p, ?_, rfl⟩
  exact List.mem_filter.2 ⟨hp, by simpa using hv⟩

theorem decodeURIComponentOpt_cons_ne_nil (x : Char) (xs : List Char) (rl : List Char)
    (h : decodeURIComponentOpt (x :: xs) = some rl) : rl ≠ [] := by
  unfold decodeURIComponentOpt at h
  split at h
  · rename_i heq
    simp at heq
  · split at h
    · rcases Option.map_eq_some'.1 h with ⟨r, _, hr⟩
      simp [← hr]
    · exact absurd h (by simp)
  · exact absurd h (by simp)
  · rcases Option.map_eq_some'.1 h with ⟨r, _, hr⟩
    simp [← hr]

theorem decodeURIComponentStr_ne_empty (s r : String)
    (h : decodeURIComponentStr s = some r) (hs : s ≠ "") : r ≠ "" := by
  unfold decodeURIComponentStr at h
  rcases Option.map_eq_some'.1 h with ⟨rl, hrl, hr⟩
  cases hd : s.data with
  | nil =>
    exact absurd (by cases s; simp at hd; simp [hd]) hs
  | cons x xs =>
    rw [hd] at hrl
    have hne := decodeURIComponentOpt_cons_ne_nil x xs rl hrl
    intro hcon
    rw [← hr] at hcon
    cases rl with
    | nil => exact hne rfl
    | cons a as =>
      have hdata := congrArg String.data hcon
      simp [List.asString] at hdata

theorem applyUrlParams_no_critical (cookies : List (String × String))
    (uo kp tp : Option String)
    (hkp : kp = none ∨ kp = some "") (htp : tp = none ∨ tp = some "") :
    applyUrlParams cookies uo kp tp
      = match uo with
        | some u =>
          if u ≠ "" then (decodeURIComponentStr u).map (jsObjInsert cookies "uin")
          else some cookies
        | none => some cookies := by
  rcases hkp with rfl | rfl <;> rcases htp with rfl | rfl <;>
    cases uo with
    | none => simp [applyUrlParams]
    | some u =>
      by_cases hu : u = "" <;>
        cases hdu : decodeURIComponentStr u <;>
          simp [applyUrlParams, hu, hdu]

theorem jsTruthy_jsObjInsert_ne (m : List (String × String)) (k v k' : String)
    (hne : k' ≠ k) : jsTruthy (jsObjInsert m k v) k' = jsTruthy m k' := by
  unfold jsTruthy
  rw [jsLookup_jsObjInsert_ne m k v k' hne]

theorem checkCookie_no_critical (requestPath cookieHeader host : String)
    (hkp : getSearchParam requestPath "key" = none ∨
      getSearchParam requestPath "key" = some "")
    (htp : getSearchParam requestPath "appmsg_token" = none ∨
      getSearchParam requestPath "appmsg_token" = some "")
    (hckey : jsTruthy (parseCookieString cookieHeader) "key" = false)
    (htok : jsTruthy (parseCookieString cookieHeader) "appmsg_token" = false) :
    checkAndExtractCompleteCookie requestPath cookieHeader host = none := by
  unfold checkAndExtractCompleteCookie
  by_cases hc : cookieHeader = ""
  · rw [if_pos hc]
  rw [if_neg hc]
  by_cases hh : strContainsB host "mp.weixin.qq.com" = true
  case neg => rw [if_pos (by simp [hh])]
  rw [if_neg (by simp [hh])]
  by_cases hp : strContainsB requestPath "action=getmsg" = true
  case neg => rw [if_pos (by simp [hp])]
  rw [if_neg (by simp [hp])]
  rw [applyUrlParams_no_critical _ _ _ _ hkp htp]
  cases huin : getSearchParam requestPath "uin" with
  | none => simp [hckey, htok]
  | some u =>
    by_cases hu : u = ""
    · simp [hu, hckey, htok]
    · cases hdu : decodeURIComponentStr u with
      | none => simp [hu, hdu]
      | some u' =>
        have hg1 : jsTruthy (jsObjInsert (parseCookieString cookieHeader) "uin" u') "key"
            = false := by
          rw [jsTruthy_jsObjInsert_ne _ _ _ _ (by decide)]
          exact hckey
        have hg2 : jsTruthy (jsObjInsert (parseCookieString cookieHeader) "uin" u')
            "appmsg_token" = false := by
          rw [jsTruthy_jsObjInsert_ne _ _ _ _ (by decide)]
          exact htok
        simp [hu, hdu, hg1, hg2]

theorem checkCookie_extracts (requestPath cookieHeader host u k t u' t' : String)
    (hck : cookieHeader ≠ "")
    (hhost : strContainsB host "mp.weixin.qq.com" = true)
    (hpath : strContainsB requestPath "action=getmsg" = true)
    (hu : getSearchParam requestPath "uin" = some u) (hu0 : u ≠ "")
    (hk : getSearchParam requestPath "key" = some k) (hk0 : k ≠ "")
    (ht : getSearchParam requestPath "appmsg_token" = some t) (ht0 : t ≠ "")
    (hdu : decodeURIComponentStr u = some u')
    (hdt : decodeURIComponentStr t = some t') :
    ∃ merged,
      applyUrlParams (parseCookieString cookieHeader) (some u) (some k) (some t)
        = some merged ∧
      checkAndExtractCompleteCookie requestPath cookieHeader host
        = some (serializeCookies merged) ∧
      jsLookup merged "uin" = some u' ∧
      jsLookup merged "key" = some k ∧
      jsLookup merged "appmsg_token" = some t' ∧
      ("uin=" ++ u').data <:+: (serializeCookies merged).data ∧
      ("key=" ++ k).data <:+: (serializeCookies merged).data ∧
      ("appmsg_token=" ++ t').data <:+: (serializeCookies merged).data := by
  have happly : applyUrlParams (parseCookieString cookieHeader) (some u) (some k) (some t)
      = some (jsObjInsert (jsObjInsert (jsObjInsert (parseCookieString cookieHeader)
          "uin" u') "key" k) "appmsg_token" t') := by
    simp [applyUrlParams, hdu, hdt, hu0, hk0, ht0]
  have hlook_tok : jsLookup (jsObjInsert (jsObjInsert (jsObjInsert
      (parseCookieString cookieHeader) "uin" u') "key" k) "appmsg_token" t')
      "appmsg_token" = some t' :=
    jsLookup_jsObjInsert_self _ "appmsg_token" t'
  have hlook_key : jsLookup (jsObjInsert (jsObjInsert (jsObjInsert
      (parseCookieString cookieHeader) "uin" u') "key" k) "appmsg_token" t')
      "key" = some k := by
    rw [jsLookup_jsObjInsert_ne _ "appmsg_token" t' "key" (by decide)]
    exact jsLookup_jsObjInsert_self _ "key" k
  have hlook_uin : jsLookup (jsObjInsert (jsObjInsert (jsObjInsert
      (parseCookieString cookieHeader) "uin" u') "key" k) "appmsg_token" t')
      "uin" = some u' := by
    rw [jsLookup_jsObjInsert_ne _ "appmsg_token" t' "uin" (by decide),
      jsLookup_jsObjInsert_ne _ "key" k "uin" (by decide)]
    exact jsLookup_jsObjInsert_self _ "uin" u'
  have hu' : u' ≠ "" := decodeURIComponentStr_ne_empty u u' hdu hu0
  have ht' : t' ≠ "" := decodeURIComponentStr_ne_empty t t' hdt ht0
  have hmem_tok : (("appmsg_token", t') : String × String) ∈ jsObjInsert (jsObjInsert
      (jsObjInsert (parseCookieString cookieHeader) "uin" u') "key" k)
      "appmsg_token" t' :=
    mem_jsObjInsert_self _ "appmsg_token" t'
  have hmem_key : (("key", k) : String × String) ∈ jsObjInsert (jsObjInsert
      (jsObjInsert (parseCookieString cookieHeader) "uin" u') "key" k)
      "appmsg_token" t' :=
    mem_jsObjInsert_of_ne _ "appmsg_token" t' ("key", k)
      (mem_jsObjInsert_self _ "key" k) (by simp)
  have hmem_uin : (("uin", u') : String × String) ∈ jsObjInsert (jsObjInsert
      (jsObjInsert (parseCookieString cookieHeader) "uin" u') "key" k)
      "appmsg_token" t' :=
    mem_jsObjInsert_of_ne _ "appmsg_token" t' ("uin", u')
      (mem_jsObjInsert_of_ne _ "key" k ("uin", u')
        (mem_jsObjInsert_self _ "uin" u') (by simp))
      (by simp)
  have htruthy : jsTruthy (jsObjInsert (jsObjInsert (jsObjInsert
      (parseCookieString cookieHeader) "uin" u') "key" k) "appmsg_token" t')
      "key" = true := by
    unfold jsTruthy
    rw [hlook_key]
    simpa using hk0
  have hresult : checkAndExtractCompleteCookie requestPath cookieHeader host
      = some (serializeCookies (jsObjInsert (jsObjInsert (jsObjInsert
          (parseCookieString cookieHeader) "uin" u') "key" k) "appmsg_token" t')) := by
    unfold checkAndExtractCompleteCookie
    rw [if_neg hck, if_neg (by simp [hhost]), if_neg (by simp [hpath]),
      hu, hk, ht, happly]
    simp [htruthy]
  refine ⟨_, happly, hresult, hlook_uin, hlook_key, hlook_tok, ?_, ?_, ?_⟩
  · simpa using serializeCookies_contains _ ("uin", u') hmem_uin hu'
  · simpa using serializeCookies_contains _ ("key", k) hmem_key hk0
  · simpa using serializeCookies_contains _ ("appmsg_token", t') hmem_tok ht'

/-- Claim C1: for a request to the target host whose path carries the
`action=getmsg` marker together with `uin`, `key` and `appmsg_token` URL
parameters and a nonempty cookie header, the emitted credential string
contains those URL-parameter name=value pairs (after the source's
URL-decoding of `uin` and `appmsg_token`), the URL values overriding any
same-named cookie value in the merged map; and when both critical fields
`key` and `appmsg_token` are absent from the URL parameters and from the
cookie header, no credential is emitted. -/
theorem credential_extraction_correctness :
    (∀ requestPath cookieHeader host u k t u' t' : String,
      cookieHeader ≠ "" →
      strContainsB host "mp.weixin.qq.com" = true →
      strContainsB requestPath "action=getmsg" = true →
      getSearchParam requestPath "uin" = some u → u ≠ "" →
      getSearchParam requestPath "key" = some k → k ≠ "" →
      getSearchParam requestPath "appmsg_token" = some t → t ≠ "" →
      decodeURIComponentStr u = some u' →
      decodeURIComponentStr t = some t' →
      ∃ merged,
        applyUrlParams (parseCookieString cookieHeader) (some u) (some k) (some t)
          = some merged ∧
        checkAndExtractCompleteCookie requestPath cookieHeader host
          = some (serializeCookies merged) ∧
        jsLookup merged "uin" = some u' ∧
        jsLookup merged "key" = some k ∧
        jsLookup merged "appmsg_token" = some t' ∧
        ("uin=" ++ u').data <:+: (serializeCookies merged).data ∧
        ("key=" ++ k).data <:+: (serializeCookies merged).data ∧
        ("appmsg_token=" ++ t').data <:+: (serializeCookies merged).data) ∧
    (∀ requestPath cookieHeader host : String,
      (getSearchParam requestPath "key" = none ∨
        getSearchParam requestPath "key" = some "") →
      (getSearchParam requestPath "appmsg_token" = none ∨
        getSearchParam requestPath "appmsg_token" = some "") →
      jsTruthy (parseCookieString cookieHeader) "key" = false →
      jsTruthy (parseCookieString cookieHeader) "appmsg_token" = false →
      checkAndExtractCompleteCookie requestPath cookieHeader host = none) :=
  ⟨checkCookie_extracts, checkCookie_no_critical⟩

theorem credential_extraction_correctness_witness :
    (∃ merged,
      applyUrlParams (parseCookieString "pass_ticket=xyz; key=old")
        (some "777") (some "abc") (some "tok") = some merged ∧
      checkAndExtractCompleteCookie
        "/mp/profile_ext?action=getmsg&uin=777&key=abc&appmsg_token=tok"
        "pass_ticket=xyz; key=old" "mp.weixin.qq.com"
        = some (serializeCookies merged) ∧
      jsLookup merged "uin" = some "777" ∧
      jsLookup merged "key" = some "abc" ∧
      jsLookup merged "appmsg_token" = some "tok" ∧
      ("uin=" ++ "777").data <:+: (serializeCookies merged).data ∧
      ("key=" ++ "abc").data <:+: (serializeCookies merged).data ∧
      ("appmsg_token=" ++ "tok").data <:+: (serializeCookies merged).data) ∧
    checkAndExtractCompleteCookie "/mp?action=getmsg&uin=7" "pass_ticket=xyz"
      "mp.weixin.qq.com" = none :=
  ⟨credential_extraction_correctness.1
      "/mp/profile_ext?action=getmsg&uin=777&key=abc&appmsg_token=tok"
      "pass_ticket=xyz; key=old" "mp.weixin.qq.com" "777" "abc" "tok" "777" "tok"
      (by decide) (by decide) (by decide) (by decide) (by decide) (by decide)
      (by decide) (by decide) (by decide) (by decide) (by decide),
    credential_extraction_correctness.2 "/mp?action=getmsg&uin=7" "pass_ticket=xyz"
      "mp.weixin.qq.com" (Or.inl (by decide)) (Or.inl (by decide))
      (by decide) (by decide)⟩

/-- Claim C10: when the Cookie header is absent or empty, the extraction
routine returns before any parsing and emits no credential, whatever the
request path (even one carrying `action=getmsg` and the critical URL
parameters) and whatever the host. -/
theorem empty_cookie_header_no_credential (requestPath host : String) :
    checkAndExtractCompleteCookie requestPath "" host = none := by
  unfold checkAndExtractCompleteCookie
  rw [if_pos rfl]

theorem record_dedup_counterexample :
    ((parseAndStoreArticles dupEnvelope ⟨[], ""⟩).capturedArticles.map
        ArticleData.url).count "u" = 2 ∧
    ¬ ((parseAndStoreArticles dupEnvelope ⟨[], ""⟩).capturedArticles.map
        ArticleData.url).Nodup := by
  constructor
  · decide
  · decide

theorem storeNewArticles_nodup (captured batch : List ArticleData)
    (hc : (captured.map ArticleData.url).Nodup)
    (hb : (batch.map ArticleData.url).Nodup) :
    ((storeNewArticles captured batch).map ArticleData.url).Nodup := by
  unfold storeNewArticles
  by_cases hlen : batch.length > 0
  · rw [if_pos hlen, List.map_append, List.nodup_append]
    refine ⟨hc, ?_, ?_⟩
    · exact ((List.filter_sublist batch).map ArticleData.url).nodup hb
    · intro a ha hafilter
      rcases List.mem_map.1 hafilter with ⟨x, hxf, hxa⟩
      rcases List.mem_filter.1 hxf with ⟨_, hxpred⟩
      rcases List.mem_map.1 ha with ⟨b, hbmem, hba⟩
      have hany : captured.any (fun c => c.url == x.url) = true :=
        List.any_eq_true.2 ⟨b, hbmem, by rw [hba, hxa]; exact beq_self_eq_true a⟩
      simp [hany] at hxpred
  · rw [if_neg hlen]
    exact hc

theorem foldl_storeNewArticles_nodup :
    ∀ (batches : List (List ArticleData)) (captured : List ArticleData),
      (captured.map ArticleData.url).Nodup →
      (∀ b ∈ batches, (b.map ArticleData.url).Nodup) →
      ((batches.foldl storeNewArticles captured).map ArticleData.url).Nodup := by
  intro batches
  induction batches with
  | nil => intro captured hc _; exact hc
  | cons b rest ih =>
    intro captured hc hb
    rw [List.foldl_cons]
    exact ih _ (storeNewArticles_nodup captured b hc (hb b (List.mem_cons_self b rest)))
      (fun x hx => hb x (List.mem_cons_of_mem b hx))

theorem storeNewArticles_grows (captured batch : List ArticleData) :
    captured <+: storeNewArticles captured batch := by
  unfold storeNewArticles
  by_cases hlen : batch.length > 0
  · rw [if_pos hlen]
    exact List.prefix_append _ _
  · rw [if_neg hlen]

/-- Claim C2 (amended): the captured record list never shrinks — each
batch only appends — and for every sequence of batches each free of
internal duplicate URLs, the accumulated list contains each URL at most
once, in first-seen order.  The restriction to internally duplicate-free
batches is forced by `record_dedup_counterexample`: de-duplication only
filters against records captured before the batch. -/
theorem record_dedup_amended :
    (∀ captured batch : List ArticleData, captured <+: storeNewArticles captured batch) ∧
    (∀ batches : List (List ArticleData),
      (∀ b ∈ batches, (b.map ArticleData.url).Nodup) →
      ((batches.foldl storeNewArticles []).map ArticleData.url).Nodup) :=
  ⟨storeNewArticles_grows,
    fun batches hb => foldl_storeNewArticles_nodup batches [] (by simp) hb⟩

theorem record_dedup_amended_witness :
    (([⟨"t1", "u1", "c", "d", 0, "a"⟩] : List ArticleData)
      <+: storeNewArticles [⟨"t1", "u1", "c", "d", 0, "a"⟩]
        [⟨"t2", "u2", "c", "d", 0, "a"⟩]) ∧
    ((([[⟨"t1", "u1", "c", "d", 0, "a"⟩],
        [⟨"t2", "u2", "c", "d", 0, "a"⟩, ⟨"t1", "u1", "c", "d", 0, "a"⟩]] :
          List (List ArticleData)).foldl storeNewArticles []).map
        ArticleData.url).Nodup :=
  ⟨record_dedup_amended.1 _ _, record_dedup_amended.2 _ (by decide)⟩

/-- Claim C7: record-batch parsing treats malformed or empty payloads as
soft no-data conditions: a non-zero `ret` leaves the capture state
entirely unchanged, and an absent `general_msg_list` stores no records;
the state transformer is total, mirroring the source's enclosing
`try/catch` which never lets an error escape. -/
theorem parse_soft_failure_tolerance :
    (∀ (env : GetmsgEnvelope) (s : CaptureState), env.ret ≠ 0 →
      parseAndStoreArticles env s = s) ∧
    (∀ (env : GetmsgEnvelope) (s : CaptureState), env.general_msg_list = none →
      (parseAndStoreArticles env s).capturedArticles = s.capturedArticles) := by
  constructor
  · intro env s h
    unfold parseAndStoreArticles
    rw [if_pos h]
  · intro env s hgml
    unfold parseAndStoreArticles
    by_cases hret : env.ret ≠ 0
    · rw [if_pos hret]
    · rw [if_neg hret, hgml]
      cases env.nickname with
      | none => simp [storeNewArticles]
      | some n =>
        by_cases hn : n ≠ "" ∧ s.capturedNickname = "" <;> simp [hn, storeNewArticles]

theorem parse_soft_failure_tolerance_witness :
    parseAndStoreArticles ⟨1, none, some [dupMsg]⟩ ⟨[], ""⟩ = ⟨[], ""⟩ ∧
    (parseAndStoreArticles ⟨0, some "nick", none⟩ ⟨[], ""⟩).capturedArticles
      = (⟨[], ""⟩ : CaptureState).capturedArticles :=
  ⟨parse_soft_failure_tolerance.1 _ _ (by decide),
    parse_soft_failure_tolerance.2 _ _ rfl⟩

theorem chunkLoopBuf_cycle (fuel : Nat) :
    ∀ acc, extractChunkedAux chunkLoopBuf fuel 0 acc = none ∧
      extractChunkedAux chunkLoopBuf fuel 22 acc = none := by
  induction fuel with
  | zero => intro acc; exact ⟨rfl, rfl⟩
  | succ n ih =>
    intro acc
    constructor
    · show extractChunkedAux chunkLoopBuf n 22 (acc ++ [List.replicate 16 97]) = none
      exact (ih _).2
    · show extractChunkedAux chunkLoopBuf n 0 (acc ++ [[]]) = none
      exact (ih _).1

/-- Claim C3 (code bug): on the malformed chunk stream `chunkLoopBuf`,
whose second chunk-size line parses as the negative number -29, the
decoder's loop never finishes: for every amount of fuel the fuelled model
is still running.  This refutes "for every truncated or malformed chunk
stream the decoder returns the partial result decoded so far without
throwing"; the spec's description ("stops at a zero-size chunk or
malformed/truncated input") is the clear intent and the missing
negative-size guard a slip. -/
theorem chunked_decoder_diverges (fuel : Nat) :
    extractChunkedBody fuel chunkLoopBuf = none := by
  unfold extractChunkedBody
  rw [(chunkLoopBuf_cycle fuel []).1]
  rfl

theorem extractChunkedBody_roundtrip_example :
    extractChunkedBody 3 (encodeChunked [[1, 2, 3], [4, 5]]) = some [1, 2, 3, 4, 5] := by
  decide

theorem extractChunkedBody_truncated_example :
    extractChunkedBody 10 [51, 13, 10, 1, 2, 3, 13, 10, 50, 13, 10, 4] = some [1, 2, 3] := by
  decide

/-- Claim C4: CA generation is idempotent: whenever both persisted files
exist it returns exactly the persisted material and leaves the filesystem
untouched, and hence two consecutive calls (from any starting filesystem,
with any fresh material the generator might produce) return byte-identical
certificate and key material, the second call changing nothing. -/
theorem ca_generation_idempotent :
    (∀ (fs : FileSys) (k c fk fc : String),
      fsRead fs caKeyPath = some k → fsRead fs caCertPath = some c →
      generateCACertificate fs fk fc = (fs, ⟨caKeyPath, caCertPath, k, c⟩)) ∧
    (∀ (fs : FileSys) (fk fc fk' fc' : String),
      (generateCACertificate (generateCACertificate fs fk fc).1 fk' fc').2.key
        = (generateCACertificate fs fk fc).2.key ∧
      (generateCACertificate (generateCACertificate fs fk fc).1 fk' fc').2.cert
        = (generateCACertificate fs fk fc).2.cert ∧
      (generateCACertificate (generateCACertificate fs fk fc).1 fk' fc').1
        = (generateCACertificate fs fk fc).1) := by
  have hfirst : ∀ (fs : FileSys) (k c fk fc : String),
      fsRead fs caKeyPath = some k → fsRead fs caCertPath = some c →
      generateCACertificate fs fk fc = (fs, ⟨caKeyPath, caCertPath, k, c⟩) := by
    intro fs k c fk fc hk hc
    unfold generateCACertificate
    rw [hk, hc]
  refine ⟨hfirst, ?_⟩
  intro fs fk fc fk' fc'
  cases hk : fsRead fs caKeyPath with
  | some k =>
    cases hc : fsRead fs caCertPath with
    | some c =>
      rw [hfirst fs k c fk fc hk hc]
      rw [hfirst fs k c fk' fc' hk hc]
      exact ⟨rfl, rfl, rfl⟩
    | none =>
      have hgen : generateCACertificate fs fk fc
          = (fsWrite (fsWrite fs caKeyPath fk) caCertPath fc,
              ⟨caKeyPath, caCertPath, fk, fc⟩) := by
        unfold generateCACertificate
        rw [hk, hc]
      have hk2 : fsRead (fsWrite (fsWrite fs caKeyPath fk) caCertPath fc) caKeyPath
          = some fk := by
        unfold fsRead fsWrite
        rw [jsLookup_jsObjInsert_ne _ caCertPath fc caKeyPath (by decide)]
        exact jsLookup_jsObjInsert_self fs caKeyPath fk
      have hc2 : fsRead (fsWrite (fsWrite fs caKeyPath fk) caCertPath fc) caCertPath
          = some fc := by
        unfold fsRead fsWrite
        exact jsLookup_jsObjInsert_self _ caCertPath fc
      rw [hgen]
      rw [hfirst _ fk fc fk' fc' hk2 hc2]
      exact ⟨rfl, rfl, rfl⟩
  | none =>
    have hgen : generateCACertificate fs fk fc
        = (fsWrite (fsWrite fs caKeyPath fk) caCertPath fc,
            ⟨caKeyPath, caCertPath, fk, fc⟩) := by
      unfold generateCACertificate
      rw [hk]
    have hk2 : fsRead (fsWrite (fsWrite fs caKeyPath fk) caCertPath fc) caKeyPath
        = some fk := by
      unfold fsRead fsWrite
      rw [jsLookup_jsObjInsert_ne _ caCertPath fc caKeyPath (by decide)]
      exact jsLookup_jsObjInsert_self fs caKeyPath fk
    have hc2 : fsRead (fsWrite (fsWrite fs caKeyPath fk) caCertPath fc) caCertPath
        = some fc := by
      unfold fsRead fsWrite
      exact jsLookup_jsObjInsert_self _ caCertPath fc
    rw [hgen]
    rw [hfirst _ fk fc fk' fc' hk2 hc2]
    exact ⟨rfl, rfl, rfl⟩

theorem ca_generation_idempotent_witness :
    generateCACertificate [(caKeyPath, "KEYPEM"), (caCertPath, "CERTPEM")] "f1" "f2"
      = ([(caKeyPath, "KEYPEM"), (caCertPath, "CERTPEM")],
          ⟨caKeyPath, caCertPath, "KEYPEM", "CERTPEM"⟩) :=
  ca_generation_idempotent.1 _ "KEYPEM" "CERTPEM" "f1" "f2" (by decide) (by decide)

/-- Claim C5: calling `startProxyServer` while a server is already
running rejects the call and leaves the state — exactly one bound
listener — unchanged; calling `stopProxyServer` when no server is running
resolves immediately without error. -/
theorem single_instance_and_idempotent_stop :
    (∀ (s : ProxyServerState) (bindOk : Bool), s.running = true →
      startProxyServer s bindOk = (s, Except.error "代理服务器已在运行")) ∧
    (∀ s : ProxyServerState, s.running = false →
      stopProxyServer s = ({ s with isClosing := false }, Except.ok ())) := by
  constructor
  · intro s bindOk h
    unfold startProxyServer
    rw [if_pos h]
  · intro s h
    unfold stopProxyServer
    rw [if_pos (by simp [h])]

theorem single_instance_and_idempotent_stop_witness :
    startProxyServer ⟨true, false⟩ true
      = (⟨true, false⟩, Except.error "代理服务器已在运行") ∧
    stopProxyServer ⟨false, true⟩ = (⟨false, false⟩, Except.ok ()) :=
  ⟨single_instance_and_idempotent_stop.1 ⟨true, false⟩ true rfl,
    single_instance_and_idempotent_stop.2 ⟨false, true⟩ rfl⟩

/-- Claim C6: for a CONNECT whose target host does not contain the
WeChat domain, the handler takes the tunnel path: raw TCP connect, `200
Connection Established` written to the client, head bytes flushed
upstream, then verbatim piping — the client receives exactly the
established response followed by the upstream's bytes, and no
credential-extraction event appears in the trace. -/
theorem tunnel_transparency :
    ∀ (url : String) (head : List Nat) (upstreamData : List (List Nat))
      (decryptedRequests : List (String × String)),
      strContainsB (parseHostPort url).1 "mp.weixin.qq.com" = false →
      handleHttpsConnect url head upstreamData decryptedRequests
        = tunnelConnection (parseHostPort url).1 (parseHostPort url).2 head upstreamData ∧
      clientBytes (handleHttpsConnect url head upstreamData decryptedRequests)
        = connectionEstablished ++ upstreamData.flatten ∧
      (∀ e ∈ handleHttpsConnect url head upstreamData decryptedRequests,
        isExtractionEvent e = false) := by
  intro url head upstreamData decryptedRequests h
  have hbranch : handleHttpsConnect url head upstreamData decryptedRequests
      = tunnelConnection (parseHostPort url).1 (parseHostPort url).2 head upstreamData := by
    unfold handleHttpsConnect
    rw [if_pos (by simp [h])]
  refine ⟨hbranch, ?_, ?_⟩
  · rw [hbranch]
    unfold clientBytes tunnelConnection
    simp only [List.filterMap_cons, List.filterMap_map]
    have hfun : ((fun e : ProxyEvent =>
        match e with
        | ProxyEvent.writeClient b => some b
        | _ => none) ∘ ProxyEvent.writeClient) = some := funext fun b => rfl
    rw [hfun, List.filterMap_some]
    simp
  · rw [hbranch]
    intro e he
    simp only [tunnelConnection, List.mem_cons, List.mem_map] at he
    rcases he with rfl | rfl | rfl | ⟨b, _, rfl⟩ <;> rfl

theorem tunnel_transparency_witness :
    handleHttpsConnect "example.com:8443" [1, 2] [[3], [4, 5]] [("p", "c")]
      = tunnelConnection "example.com" (some 8443) [1, 2] [[3], [4, 5]] ∧
    clientBytes (handleHttpsConnect "example.com:8443" [1, 2] [[3], [4, 5]] [("p", "c")])
      = connectionEstablished ++ ([[3], [4, 5]] : List (List Nat)).flatten :=
  ⟨(tunnel_transparency "example.com:8443" [1, 2] [[3], [4, 5]] [("p", "c")] (by decide)).1,
    (tunnel_transparency "example.com:8443" [1, 2] [[3], [4, 5]] [("p", "c")] (by decide)).2.1⟩

theorem restore_before_stop_append (A B : List SessionEvent)
    (hA : ∀ e ∈ A, isRestoreEvent e = true) (hB : ∀ e ∈ B, isRestoreEvent e = false) :
    ∀ i j (hi : i < (A ++ B).length) (hj : j < (A ++ B).length),
      isRestoreEvent ((A ++ B).get ⟨i, hi⟩) = true →
      (A ++ B).get ⟨j, hj⟩ = SessionEvent.callStopProxyServer →
      i < j := by
  intro i j hi hj hri hsj
  rw [List.get_eq_getElem] at hri hsj
  have hiA : i < A.length := by
    by_contra hge
    push_neg at hge
    rw [List.getElem_append_right hge] at hri
    have hib : i - A.length < B.length := by
      rw [List.length_append] at hi
      omega
    rw [hB _ (List.getElem_mem hib)] at hri
    exact Bool.false_ne_true hri
  have hjA : A.length ≤ j := by
    by_contra hlt
    push_neg at hlt
    rw [List.getElem_append_left hlt] at hsj
    have hr := hA _ (List.getElem_mem hlt)
    rw [hsj] at hr
    simp [isRestoreEvent] at hr
  omega

theorem restoreCallsOf_all_restore (orig : Option SavedProxySettings) :
    ∀ e ∈ restoreCallsOf orig, isRestoreEvent e = true := by
  intro e he
  rcases orig with _ | ⟨en, srv⟩
  · simp [restoreCallsOf] at he
  · rcases srv with _ | srv
    · simp [restoreCallsOf] at he
      rw [he]
      rfl
    · by_cases hc : en = true ∧ srv ≠ ""
      · simp [restoreCallsOf, hc] at he
        rw [he]
        rfl
      · simp [restoreCallsOf, hc] at he
        rw [he]
        rfl

theorem stopCallsOf_no_restore (running : Bool) :
    ∀ e ∈ stopCallsOf running, isRestoreEvent e = false := by
  intro e he
  cases running with
  | false => simp [stopCallsOf] at he
  | true =>
    simp [stopCallsOf] at he
    rw [he]
    rfl

/-- Claim C8: stopping a monitoring session restores the previously
captured OS proxy settings — re-enable with the original server when it
was enabled with a truthy server, disable when it was disabled — strictly
before the proxy-server stop call (every restore event precedes every
stop event in the trace), and the remembered settings end cleared. -/
theorem stop_monitoring_ordering :
    ∀ (w : SessionWorld) (restoreOk : Bool),
      (autoStopCookieMonitoring w restoreOk).1.originalProxySettings = none ∧
      (autoStopCookieMonitoring w restoreOk).1.proxyRunning = false ∧
      (∀ saved srv, w.originalProxySettings = some saved → saved.enabled = true →
        saved.server = some srv → srv ≠ "" →
        restoreCallsOf w.originalProxySettings = [SessionEvent.callEnableProxy srv]) ∧
      (∀ saved, w.originalProxySettings = some saved → saved.enabled = false →
        restoreCallsOf w.originalProxySettings = [SessionEvent.callDisableProxy]) ∧
      (∀ i j (hi : i < (autoStopCookieMonitoring w restoreOk).2.length)
        (hj : j < (autoStopCookieMonitoring w restoreOk).2.length),
        isRestoreEvent ((autoStopCookieMonitoring w restoreOk).2.get ⟨i, hi⟩) = true →
        (autoStopCookieMonitoring w restoreOk).2.get ⟨j, hj⟩
          = SessionEvent.callStopProxyServer →
        i < j) := by
  intro w restoreOk
  refine ⟨rfl, rfl, ?_, ?_, ?_⟩
  · intro saved srv hsaved hen hserver hsrv
    rw [hsaved]
    simp [restoreCallsOf, hserver, hen, hsrv]
  · intro saved hsaved hen
    rw [hsaved]
    rcases hs : saved.server with _ | srv
    · simp [restoreCallsOf, hs]
    · simp [restoreCallsOf, hs, hen]
  · exact restore_before_stop_append _ _
      (restoreCallsOf_all_restore w.originalProxySettings)
      (stopCallsOf_no_restore w.proxyRunning)

theorem stop_monitoring_ordering_witness :
    ((autoStopCookieMonitoring ⟨⟨true, "old"⟩, true, some ⟨true, some "old"⟩⟩
        true).1.originalProxySettings = none) ∧
    (restoreCallsOf (some ⟨true, some "old"⟩) = [SessionEvent.callEnableProxy "old"]) ∧
    (0 < 1) :=
  ⟨(stop_monitoring_ordering ⟨⟨true, "old"⟩, true, some ⟨true, some "old"⟩⟩ true).1,
    (stop_monitoring_ordering ⟨⟨true, "old"⟩, true, some ⟨true, some "old"⟩⟩
        true).2.2.1 ⟨true, some "old"⟩ "old" rfl rfl rfl (by decide),
    (stop_monitoring_ordering ⟨⟨true, "old"⟩, true, some ⟨true, some "old"⟩⟩
        true).2.2.2.2 0 1 (by decide) (by decide) (by decide) (by decide)⟩

/-- Claim C9 (amended): every failing run of the start-monitoring
handler ends with the proxy server stopped and the OS proxy registry
equal to its initial value — captured-but-never-applied settings are not
mutated — provided an enabled original configuration carries a nonempty
server string.  That proviso is forced by
`start_failure_rollback_counterexample`: an enabled-with-empty-server
original is disabled by the rollback. -/
theorem start_failure_rollback :
    ∀ (w : SessionWorld) (f : StartFlags) (msg : String),
      (w.os.proxyEnable = true → w.os.proxyServer ≠ "") →
      (autoStartCookieMonitoring w f).2 = StartOutcome.failure msg →
      (autoStartCookieMonitoring w f).1.os = w.os ∧
      (autoStartCookieMonitoring w f).1.proxyRunning = false := by
  intro w f msg hsrv hfail
  rcases w with ⟨⟨en, srv⟩, running, orig⟩
  rcases f with ⟨ci, io, bo, eo, ceo, cdo⟩
  cases en <;> cases running <;> cases ci <;> cases io <;> cases bo <;> cases eo <;>
    cases ceo <;> cases cdo <;>
      simp_all [autoStartCookieMonitoring, autoStartCleanup, enableSystemProxy,
        disableSystemProxy, getProxyStatus]

theorem start_failure_rollback_counterexample :
    (autoStartCookieMonitoring ⟨⟨true, ""⟩, false, none⟩
        ⟨true, true, false, true, true, true⟩).2
      = StartOutcome.failure "listen error" ∧
    (autoStartCookieMonitoring ⟨⟨true, ""⟩, false, none⟩
        ⟨true, true, false, true, true, true⟩).1.os
      ≠ (⟨⟨true, ""⟩, false, none⟩ : SessionWorld).os := by
  constructor
  · decide
  · decide

theorem start_failure_rollback_witness :
    (autoStartCookieMonitoring ⟨⟨true, "corp:3128"⟩, false, none⟩
        ⟨true, true, false, true, true, true⟩).1.os
      = (⟨⟨true, "corp:3128"⟩, false, none⟩ : SessionWorld).os ∧
    (autoStartCookieMonitoring ⟨⟨true, "corp:3128"⟩, false, none⟩
        ⟨true, true, false, true, true, true⟩).1.proxyRunning = false :=
  start_failure_rollback ⟨⟨true, "corp:3128"⟩, false, none⟩
    ⟨true, true, false, true, true, true⟩ "listen error" (by decide) (by decide)

/-! ## Chunked decoder: round-trip and truncation support -/

theorem hexDigitVal_hexDigitByte (n : Nat) (h : n < 16) :
    hexDigitVal (hexDigitByte n) = some n := by
  interval_cases n <;> decide

theorem toHexBytesAux_hex (fuel : Nat) :
    ∀ n, n < fuel → ∀ b ∈ toHexBytesAux fuel n, (hexDigitVal b).isSome := by
  induction fuel with
  | zero => intro n h; omega
  | succ m ih =>
    intro n h b hb
    unfold toHexBytesAux at hb
    by_cases h16 : n < 16
    · rw [if_pos h16] at hb
      rcases List.mem_singleton.1 hb with rfl
      rw [hexDigitVal_hexDigitByte n h16]
      rfl
    · rw [if_neg h16] at hb
      rcases List.mem_append.1 hb with hb1 | hb2
      · exact ih (n / 16) (by omega) b hb1
      · rcases List.mem_singleton.1 hb2 with rfl
        rw [hexDigitVal_hexDigitByte _ (Nat.mod_lt n (by omega))]
        rfl

theorem toHexBytesAux_ne_nil (fuel n : Nat) (h : n < fuel) :
    toHexBytesAux fuel n ≠ [] := by
  cases fuel with
  | zero => omega
  | succ m =>
    unfold toHexBytesAux
    by_cases h16 : n < 16
    · rw [if_pos h16]
      simp
    · rw [if_neg h16]
      simp

theorem toHexBytesAux_foldl (fuel : Nat) :
    ∀ n, n < fuel → ∀ acc,
      (toHexBytesAux fuel n).foldl
          (fun acc b => 16 * acc + (hexDigitVal b).getD 0) acc
        = acc * 16 ^ (toHexBytesAux fuel n).length + n := by
  induction fuel with
  | zero => intro n h; omega
  | succ m ih =>
    intro n h acc
    unfold toHexBytesAux
    by_cases h16 : n < 16
    · rw [if_pos h16]
      simp [hexDigitVal_hexDigitByte n h16]
      ring
    · rw [if_neg h16]
      rw [List.foldl_append]
      rw [ih (n / 16) (by omega) acc]
      simp [hexDigitVal_hexDigitByte (n % 16) (Nat.mod_lt n (by omega))]
      have hdm := Nat.div_add_mod n 16
      rw [Nat.pow_succ]
      ring_nf
      omega

theorem hexRunVal_toHexBytes (n : Nat) : hexRunVal (toHexBytes n) = some n := by
  unfold hexRunVal toHexBytes
  have hall := toHexBytesAux_hex (n + 1) n (by omega)
  have htake : (toHexBytesAux (n + 1) n).takeWhile
      (fun b => (hexDigitVal b).isSome) = toHexBytesAux (n + 1) n :=
    List.takeWhile_eq_self_iff.2 hall
  rw [htake]
  rw [if_neg (by
    simp only [List.isEmpty_iff]
    exact toHexBytesAux_ne_nil (n + 1) n (by omega))]
  rw [toHexBytesAux_foldl (n + 1) n (by omega) 0]
  simp

theorem dropWhile_eq_self_of_all {α : Type} (p : α → Bool) (l : List α)
    (h : ∀ b ∈ l, p b = false) : l.dropWhile p = l := by
  cases l with
  | nil => rfl
  | cons x xs =>
    rw [List.dropWhile_cons, if_neg]
    rw [h x (List.mem_cons_self x xs)]
    simp

theorem trimBytes_eq_self (l : List Nat) (h : ∀ b ∈ l, isWsByte b = false) :
    trimBytes l = l := by
  unfold trimBytes
  rw [dropWhile_eq_self_of_all _ _ h,
    dropWhile_eq_self_of_all _ _ (fun b hb => h b (List.mem_reverse.1 hb)),
    List.reverse_reverse]

theorem hexDigit_not_ws (b : Nat) (h : (hexDigitVal b).isSome) : isWsByte b = false := by
  have hb : 48 ≤ b := by
    unfold hexDigitVal at h
    split_ifs at h with h1 h2 h3
    · omega
    · omega
    · omega
    · simp at h
  unfold isWsByte
  simp only [Bool.or_eq_false_iff, beq_eq_false_iff_ne]
  omega

theorem hexDigit_ne (b : Nat) (h : (hexDigitVal b).isSome) :
    b ≠ 13 ∧ b ≠ 10 ∧ b ≠ 45 ∧ b ≠ 43 ∧ b ≠ 120 ∧ b ≠ 88 := by
  unfold hexDigitVal at h
  split_ifs at h with h1 h2 h3
  · omega
  · omega
  · omega
  · simp at h

theorem toHexBytes_all_hex (n : Nat) :
    ∀ b ∈ toHexBytes n, (hexDigitVal b).isSome := by
  unfold toHexBytes
  exact toHexBytesAux_hex (n + 1) n (by omega)

theorem hexAfterPrefix_of_hex (l : List Nat) (h : ∀ b ∈ l, (hexDigitVal b).isSome) :
    hexAfterPrefix l = hexRunVal l := by
  unfold hexAfterPrefix
  split
  · have h120 := h 120 (List.mem_cons_of_mem _ (List.mem_cons_self _ _))
    simp [hexDigitVal] at h120
  · have h88 := h 88 (List.mem_cons_of_mem _ (List.mem_cons_self _ _))
    simp [hexDigitVal] at h88
  · rfl

theorem jsParseIntHexBytes_of_hex (l : List Nat)
    (h : ∀ b ∈ l, (hexDigitVal b).isSome) :
    jsParseIntHexBytes l = (hexRunVal l).map (fun n => (n : Int)) := by
  unfold jsParseIntHexBytes
  split
  · have h45 := h 45 (List.mem_cons_self _ _)
    simp [hexDigitVal] at h45
  · have h43 := h 43 (List.mem_cons_self _ _)
    simp [hexDigitVal] at h43
  · rw [hexAfterPrefix_of_hex l h]

theorem jsParseIntHexBytes_toHexBytes (n : Nat) :
    jsParseIntHexBytes (toHexBytes n) = some (n : Int) := by
  rw [jsParseIntHexBytes_of_hex _ (toHexBytes_all_hex n), hexRunVal_toHexBytes n]
  rfl

theorem trimBytes_toHexBytes (n : Nat) : trimBytes (toHexBytes n) = toHexBytes n :=
  trimBytes_eq_self _ (fun b hb => hexDigit_not_ws b (toHexBytes_all_hex n b hb))

theorem range_find?_shift (p s : Nat) (P : Nat → Bool)
    (hbelow : ∀ i, i < p → P i = false) :
    (List.range (p + s)).find? P
      = ((List.range s).find? (fun j => P (p + j))).map (fun j => p + j) := by
  rw [List.range_add, List.find?_append]
  have hnone : (List.range p).find? P = none := by
    rw [List.find?_eq_none]
    intro x hx hP
    rw [hbelow x (List.mem_range.1 hx)] at hP
    exact Bool.false_ne_true hP
  rw [hnone, List.find?_map]
  rfl

theorem findCRLF_append_offset (pre suffix : List Nat) :
    findCRLF (pre ++ suffix) ((pre.length : Nat) : Int)
      = (findCRLF suffix 0).map (fun j => pre.length + j) := by
  unfold findCRLF
  rw [List.length_append]
  rw [range_find?_shift pre.length suffix.length _ (by
    intro i hi
    have : ¬ ((pre.length : Int) ≤ (i : Int)) := by omega
    simp [this])]
  congr 1
  congr 1
  funext j
  have e1 : ((pre.length : Int) ≤ ((pre.length + j : Nat) : Int)) := by
    push_cast
    omega
  have e2 : ((0 : Int) ≤ ((j : Nat) : Int)) := by positivity
  rw [decide_eq_true e1, decide_eq_true e2]
  have e3 : decide (pre.length + j + 1 < pre.length + suffix.length)
      = decide (j + 1 < suffix.length) := decide_eq_decide.2 (by omega)
  rw [e3]
  have e4 : (pre ++ suffix).getD (pre.length + j) 0 = suffix.getD j 0 := by
    rw [List.getD_append_right pre suffix 0 (pre.length + j) (by omega)]
    congr 1
    omega
  have e5 : (pre ++ suffix).getD (pre.length + j + 1) 0 = suffix.getD (j + 1) 0 := by
    rw [List.getD_append_right pre suffix 0 (pre.length + j + 1) (by omega)]
    congr 1
    omega
  rw [e4, e5]

theorem findCRLF_start01 (l : List Nat) (hne : l.getD 0 0 ≠ 13) :
    findCRLF l 0 = findCRLF l 1 := by
  unfold findCRLF
  congr 1
  funext i
  cases i with
  | zero =>
    have hb : (l.getD 0 0 == 13) = false := beq_eq_false_iff_ne.2 hne
    have hr : (decide ((1 : Int) ≤ ((0 : Nat) : Int))) = false := by decide
    rw [hb, hr]
    simp
  | succ m =>
    have h0 : ((0 : Int) ≤ ((m + 1 : Nat) : Int)) := by positivity
    have h1 : ((1 : Int) ≤ ((m + 1 : Nat) : Int)) := by
      push_cast
      omega
    rw [decide_eq_true h0, decide_eq_true h1]

theorem findCRLF_cons_shift (b : Nat) (tail : List Nat) (hb : b ≠ 13) :
    findCRLF (b :: tail) 0 = (findCRLF tail 0).map (fun j => 1 + j) := by
  rw [findCRLF_start01 (b :: tail) (by simpa using hb)]
  have h := findCRLF_append_offset [b] tail
  simpa using h

theorem findCRLF_hexline (hex rest : List Nat) (hhex : ∀ b ∈ hex, b ≠ 13) :
    findCRLF (hex ++ 13 :: 10 :: rest) 0 = some hex.length := by
  induction hex with
  | nil =>
    simp only [List.nil_append]
    unfold findCRLF
    have hlen : (13 :: 10 :: rest : List Nat).length = rest.length + 1 + 1 := by simp
    rw [hlen, List.range_succ_eq_map]
    rw [List.find?_cons_of_pos]
    · rfl
    · have e1 : (decide ((0 : Int) ≤ ((0 : Nat) : Int))) = true := by decide
      have e2 : decide (0 + 1 < rest.length + 1 + 1) = true := decide_eq_true (by omega)
      have e3 : ((13 :: 10 :: rest : List Nat).getD 0 0 == 13) = true := by rfl
      have e4 : ((13 :: 10 :: rest : List Nat).getD (0 + 1) 0 == 10) = true := by rfl
      rw [e1, e2, e3, e4]
      rfl
  | cons b hex' ih =>
    have hb : b ≠ 13 := hhex b (List.mem_cons_self _ _)
    rw [List.cons_append, findCRLF_cons_shift b _ hb,
      ih (fun x hx => hhex x (List.mem_cons_of_mem _ hx))]
    simp [Nat.add_comm]

theorem take_min_length {α : Type} (l : List α) (b : Nat) :
    l.take (min b l.length) = l.take b := by
  rcases Nat.le_total b l.length with h | h
  · rw [Nat.min_eq_left h]
  · rw [Nat.min_eq_right h, List.take_length, List.take_of_length_le h]

theorem jsSlice_cast_zero (l : List Nat) (b : Nat) :
    jsSlice l 0 ((b : Nat) : Int) = l.take b := by
  unfold jsSlice jsSliceIdx
  rw [if_neg (by omega), if_neg (by omega)]
  have h1 : ((b : Int)).toNat = b := Int.toNat_natCast b
  have h2 : ((0 : Int)).toNat = 0 := rfl
  rw [h1, h2, Nat.zero_min, List.drop_zero, take_min_length]

theorem jsSlice_append_offset (pre suffix : List Nat) (a b : Nat) :
    jsSlice (pre ++ suffix) ((pre.length + a : Nat) : Int) ((pre.length + b : Nat) : Int)
      = jsSlice suffix ((a : Nat) : Int) ((b : Nat) : Int) := by
  unfold jsSlice jsSliceIdx
  rw [if_neg (by omega), if_neg (by omega), if_neg (by omega), if_neg (by omega)]
  rw [List.length_append]
  rw [Int.toNat_natCast, Int.toNat_natCast, Int.toNat_natCast, Int.toNat_natCast]
  have hb : min (pre.length + b) (pre.length + suffix.length)
      = pre.length + min b suffix.length := by omega
  have ha : min (pre.length + a) (pre.length + suffix.length)
      = pre.length + min a suffix.length := by omega
  rw [hb, ha, List.take_append, List.drop_append]

theorem encodeChunked_cons (piece : List Nat) (rest : List (List Nat)) :
    encodeChunked (piece :: rest) = encodeChunk piece ++ encodeChunked rest := by
  unfold encodeChunked
  simp [List.append_assoc]

theorem extractChunkedAux_nil_case (pre : List Nat) (acc : List (List Nat)) :
    extractChunkedAux (pre ++ encodeChunked []) 1 ((pre.length : Nat) : Int) acc
      = some acc := by
  have hbuf : encodeChunked ([] : List (List Nat)) = [48, 13, 10, 13, 10] := rfl
  rw [hbuf]
  unfold extractChunkedAux
  rw [if_pos (by rw [List.length_append]; push_cast; simp)]
  rw [findCRLF_append_offset pre [48, 13, 10, 13, 10]]
  rw [show findCRLF [48, 13, 10, 13, 10] 0 = some 1 from by decide]
  simp only [Option.map_some']
  have hsl : jsSlice (pre ++ [48, 13, 10, 13, 10]) ((pre.length : Nat) : Int)
      (((pre.length + 1 : Nat) : Nat) : Int) = [48] := by
    have h0 : ((pre.length : Nat) : Int) = ((pre.length + 0 : Nat) : Int) := by norm_num
    rw [h0, jsSlice_append_offset pre _ 0 1]
    decide
  rw [hsl]
  rw [show jsParseIntHexBytes (trimBytes [48]) = some 0 from by decide]
  simp

theorem extractChunkedAux_chunk_step (pre piece tail : List Nat) (fuel : Nat)
    (acc : List (List Nat)) (hpne : piece ≠ []) :
    extractChunkedAux (pre ++ (encodeChunk piece ++ tail)) (fuel + 1)
        ((pre.length : Nat) : Int) acc
      = extractChunkedAux ((pre ++ encodeChunk piece) ++ tail)
          fuel (((pre ++ encodeChunk piece).length : Nat) : Int)
          (acc ++ [piece]) := by
  have hplen : piece.length ≠ 0 := fun h => hpne (List.length_eq_zero.1 h)
  have hshape : encodeChunk piece ++ tail
      = toHexBytes piece.length ++ 13 :: 10 :: (piece ++ 13 :: 10 :: tail) := by
    unfold encodeChunk crlfBytes
    simp [List.append_assoc]
  rw [hshape]
  set R := extractChunkedAux ((pre ++ encodeChunk piece) ++ tail)
      fuel (((pre ++ encodeChunk piece).length : Nat) : Int)
      (acc ++ [piece]) with hR
  have hlen : (pre ++ (toHexBytes piece.length
      ++ 13 :: 10 :: (piece ++ 13 :: 10 :: tail))).length
      = pre.length + ((toHexBytes piece.length).length
          + (2 + (piece.length + (2 + (tail).length)))) := by
    simp [List.length_append]
    omega
  unfold extractChunkedAux
  rw [if_pos (by rw [hlen]; push_cast; omega)]
  rw [findCRLF_append_offset]
  rw [findCRLF_hexline _ _
    (fun b hb => (hexDigit_ne b (toHexBytes_all_hex piece.length b hb)).1)]
  simp only [Option.map_some']
  have hsl : jsSlice (pre ++ (toHexBytes piece.length
      ++ 13 :: 10 :: (piece ++ 13 :: 10 :: tail)))
      ((pre.length : Nat) : Int)
      (((pre.length + (toHexBytes piece.length).length : Nat)) : Int)
      = toHexBytes piece.length := by
    have h0 : ((pre.length : Nat) : Int) = ((pre.length + 0 : Nat) : Int) := by norm_num
    rw [h0, jsSlice_append_offset pre _ 0 (toHexBytes piece.length).length,
      Nat.cast_zero, jsSlice_cast_zero]
    exact List.take_left _ _
  rw [hsl, trimBytes_toHexBytes, jsParseIntHexBytes_toHexBytes]
  have hizero : ¬ (((piece.length : Nat) : Int) = 0) := by
    rw [Int.natCast_eq_zero]
    exact hplen
  have hguard : ¬ ((((pre.length + (toHexBytes piece.length).length : Nat) : Int) + 2
      + ((piece.length : Nat) : Int))
      > ((pre ++ (toHexBytes piece.length
          ++ 13 :: 10 :: (piece ++ 13 :: 10 :: tail))).length : Int)) := by
    rw [hlen]
    push_cast
    omega
  simp only [if_neg hizero, if_neg hguard]
  have hslice2 : jsSlice (pre ++ (toHexBytes piece.length
      ++ 13 :: 10 :: (piece ++ 13 :: 10 :: tail)))
      (((pre.length + (toHexBytes piece.length).length : Nat) : Int) + 2)
      ((((pre.length + (toHexBytes piece.length).length : Nat) : Int) + 2)
        + ((piece.length : Nat) : Int))
      = piece := by
    have hc1 : (((pre.length + (toHexBytes piece.length).length : Nat) : Int) + 2)
        = ((pre.length + ((toHexBytes piece.length).length + 2) : Nat) : Int) := by
      push_cast
      ring
    have hc2 : (((pre.length + ((toHexBytes piece.length).length + 2) : Nat) : Int)
        + ((piece.length : Nat) : Int))
        = ((pre.length + ((toHexBytes piece.length).length + 2 + piece.length) : Nat) : Int) := by
      push_cast
      ring
    rw [hc1, hc2, jsSlice_append_offset pre _ ((toHexBytes piece.length).length + 2)
      ((toHexBytes piece.length).length + 2 + piece.length)]
    have hshape2 : toHexBytes piece.length ++ 13 :: 10 :: (piece ++ 13 :: 10 :: tail)
        = (toHexBytes piece.length ++ [13, 10]) ++ (piece ++ 13 :: 10 :: tail) := by
      simp [List.append_assoc]
    rw [hshape2]
    have hlen2 : (toHexBytes piece.length).length + 2
        = (toHexBytes piece.length ++ [13, 10]).length := by
      simp [List.length_append]
    have hc3 : (((toHexBytes piece.length).length + 2 : Nat) : Int)
        = (((toHexBytes piece.length ++ [13, 10]).length + 0 : Nat) : Int) := by
      rw [← hlen2]
    have hc4 : (((toHexBytes piece.length).length + 2 + piece.length : Nat) : Int)
        = (((toHexBytes piece.length ++ [13, 10]).length + piece.length : Nat) : Int) := by
      rw [← hlen2]
    rw [hc3, hc4, jsSlice_append_offset _ _ 0 piece.length, Nat.cast_zero, jsSlice_cast_zero]
    exact List.take_left _ _
  have hoff : ((((pre.length + (toHexBytes piece.length).length : Nat) : Int) + 2)
      + ((piece.length : Nat) : Int) + 2)
      = (((pre ++ encodeChunk piece).length : Nat) : Int) := by
    unfold encodeChunk crlfBytes
    simp [List.length_append]
    ring
  have hbuf2 : pre ++ (toHexBytes piece.length
      ++ 13 :: 10 :: (piece ++ 13 :: 10 :: tail))
      = (pre ++ encodeChunk piece) ++ tail := by
    unfold encodeChunk crlfBytes
    simp [List.append_assoc]
  rw [hslice2, hoff, hbuf2, ← extractChunkedAux.eq_def]

theorem extractChunkedAux_truncated_base (pre : List Nat) (n : Nat) (data : List Nat)
    (hd : data.length < n) (acc : List (List Nat)) :
    extractChunkedAux (pre ++ (toHexBytes n ++ 13 :: 10 :: data)) 1
        ((pre.length : Nat) : Int) acc = some acc := by
  have hlen : (pre ++ (toHexBytes n ++ 13 :: 10 :: data)).length
      = pre.length + ((toHexBytes n).length + (2 + data.length)) := by
    simp [List.length_append]
    omega
  unfold extractChunkedAux
  rw [if_pos (by rw [hlen]; push_cast; omega)]
  rw [findCRLF_append_offset]
  rw [findCRLF_hexline _ _ (fun b hb => (hexDigit_ne b (toHexBytes_all_hex n b hb)).1)]
  simp only [Option.map_some']
  have hsl : jsSlice (pre ++ (toHexBytes n ++ 13 :: 10 :: data))
      ((pre.length : Nat) : Int)
      (((pre.length + (toHexBytes n).length : Nat)) : Int) = toHexBytes n := by
    have h0 : ((pre.length : Nat) : Int) = ((pre.length + 0 : Nat) : Int) := by norm_num
    rw [h0, jsSlice_append_offset pre _ 0 (toHexBytes n).length,
      Nat.cast_zero, jsSlice_cast_zero]
    exact List.take_left _ _
  rw [hsl, trimBytes_toHexBytes, jsParseIntHexBytes_toHexBytes]
  have hizero : ¬ (((n : Nat) : Int) = 0) := by
    rw [Int.natCast_eq_zero]
    omega
  have hguard : ((((pre.length + (toHexBytes n).length : Nat) : Int) + 2
      + ((n : Nat) : Int))
      > ((pre ++ (toHexBytes n ++ 13 :: 10 :: data)).length : Int)) := by
    rw [hlen]
    push_cast
    omega
  simp only [if_neg hizero, if_pos hguard]

theorem extractChunkedAux_encode (pieces : List (List Nat)) :
    ∀ (pre : List Nat) (acc : List (List Nat)), (∀ p ∈ pieces, p ≠ []) →
      extractChunkedAux (pre ++ encodeChunked pieces) (pieces.length + 1)
        ((pre.length : Nat) : Int) acc = some (acc ++ pieces) := by
  induction pieces with
  | nil =>
    intro pre acc _
    simp only [List.length_nil, Nat.zero_add]
    rw [extractChunkedAux_nil_case]
    simp
  | cons piece rest ih =>
    intro pre acc hne
    simp only [List.length_cons]
    rw [encodeChunked_cons,
      extractChunkedAux_chunk_step pre piece (encodeChunked rest) (rest.length + 1) acc
        (hne piece (List.mem_cons_self _ _))]
    rw [ih (pre ++ encodeChunk piece) (acc ++ [piece])
      (fun p hp => hne p (List.mem_cons_of_mem _ hp))]
    simp

/-- The decoder inverts standard chunked framing: for every sequence of
nonempty chunks, decoding the framing returns exactly their
concatenation (`pieces.length + 1` loop iterations always suffice). -/
theorem extractChunkedBody_roundtrip (pieces : List (List Nat))
    (hne : ∀ p ∈ pieces, p ≠ []) :
    extractChunkedBody (pieces.length + 1) (encodeChunked pieces)
      = some pieces.flatten := by
  unfold extractChunkedBody
  have h := extractChunkedAux_encode pieces [] [] hne
  simp only [List.nil_append, List.length_nil, Nat.cast_zero] at h
  rw [h]
  rfl

/-- Truncated streams return the partial result decoded so far: a valid
framing of `pieces` followed by a chunk whose size line promises more
bytes than remain decodes to exactly `pieces`. -/
theorem extractChunkedBody_truncated (pieces : List (List Nat))
    (hne : ∀ p ∈ pieces, p ≠ []) (n : Nat) (data : List Nat) (hd : data.length < n) :
    extractChunkedBody (pieces.length + 1)
        ((pieces.map encodeChunk).flatten ++ (toHexBytes n ++ 13 :: 10 :: data))
      = some pieces.flatten := by
  unfold extractChunkedBody
  have haux : ∀ (pieces2 : List (List Nat)) (pre : List Nat) (acc : List (List Nat)),
      (∀ p ∈ pieces2, p ≠ []) →
      extractChunkedAux (pre ++ ((pieces2.map encodeChunk).flatten
          ++ (toHexBytes n ++ 13 :: 10 :: data))) (pieces2.length + 1)
        ((pre.length : Nat) : Int) acc = some (acc ++ pieces2) := by
    intro pieces2
    induction pieces2 with
    | nil =>
      intro pre acc _
      simp only [List.map_nil, List.flatten_nil, List.nil_append, List.length_nil,
        Nat.zero_add]
      rw [extractChunkedAux_truncated_base pre n data hd]
      simp
    | cons piece rest ih =>
      intro pre acc hne2
      simp only [List.length_cons, List.map_cons, List.flatten_cons, List.append_assoc]
      rw [extractChunkedAux_chunk_step pre piece _ (rest.length + 1) acc
        (hne2 piece (List.mem_cons_self _ _))]
      rw [ih (pre ++ encodeChunk piece) (acc ++ [piece])
        (fun p hp => hne2 p (List.mem_cons_of_mem _ hp))]
      simp
  have h := haux pieces [] [] hne
  simp only [List.nil_append, List.length_nil, Nat.cast_zero] at h
  rw [h]
  rfl

end WechatAnalyzer
